import Mathlib

/-!
Verification development for the `brack` terminal puzzle game.

The Go sources are embedded shallowly:

* `puzzledata` mirrors the `puzzledata` struct.  Go's
  `map[string]string` field `Solutions` is represented by its entry
  list; Go map iteration order is unspecified, so theorems quantify
  over every entry order by quantifying over the list.
* `model` mirrors the `model` struct of `model.go`, dropping the
  fields that belong to external collaborators (the `textinput`
  widget and the storage handle).  The submitted guess text, which
  the Go code reads from the widget on enter, is passed as an
  explicit argument.  Writes to the storage client are returned as an
  `Option GameState` so theorems can talk about snapshot emission;
  this embeds the run with a non-nil storage client (with a nil
  client the saves are skipped and the model fields evolve the same
  way).
* Counters are Go `int`s that are only ever incremented from zero, far
  from overflow, so they are embedded as `Nat`.
* Strings are Lean `String`s (lists of Unicode code points).
  `strings.Replace(s, old, new, 1)` and `strings.Contains` are
  embedded by explicit recursions on the character list.
* `strings.EqualFold` performs Unicode simple case folding, whose full
  folding table is not reproduced here.  The matching loop and the
  guess transition are therefore given in a form parametrised by the
  comparison predicate (`findMatchWith`, `submitGuessWith`), and the
  matching theorems are proved for every predicate — in particular for
  the program's real `EqualFold`.  `equalFold` is the executable ASCII
  fragment of `EqualFold` (it agrees with Go exactly on ASCII
  strings); it instantiates the concrete `findMatch`/`submitGuess`
  used for concrete runs, counterexamples and witnesses, all of which
  involve ASCII answers and inputs only.
-/

namespace Brack

/-- Embeds the `puzzledata` struct of the Go source.  `solutions` is
the entry list of the Go map `Solutions`; its order stands for the
unspecified map iteration order. -/
structure puzzledata where
  completionText : String
  puzzleDate : String
  completionURL : String
  solutions : List (String × String)
  initialPuzzle : String
  puzzleSolution : String
deriving Repr, DecidableEq

/-- Embeds the `model` struct of `model.go` (the `txtin` widget and
`storage` handle are external collaborators and are not part of the
embedded state). -/
structure model where
  done : Bool
  correct : Nat
  incorrect : Nat
  chars : Nat
  state : String
  data : puzzledata
  w : Nat
  h : Nat
deriving Repr, DecidableEq

/-- Embeds the `GameState` record persisted by the storage layer
(`LastPlayed` timestamps are opaque `Nat`s here). -/
structure GameState where
  puzzleDate : String
  state : String
  correct : Nat
  incorrect : Nat
  chars : Nat
  lastPlayed : Nat
  completed : Bool
deriving Repr, DecidableEq

/-- The executable ASCII fragment of `strings.EqualFold`: equality
after mapping ASCII upper case letters to lower case.  On ASCII
strings this is exactly Go's `EqualFold`; the full Unicode simple
folding table is not reproduced, so theorems about matching are
stated over an arbitrary comparison predicate and this fragment is
used only to run concrete (all-ASCII) scenarios. -/
def equalFold (a b : String) : Bool :=
  a.data.map Char.toLower == b.data.map Char.toLower

/-- Embeds `strings.Contains` for character lists: `goContainsL sub s`
is true when `sub` occurs contiguously inside `s`. -/
def goContainsL (sub : List Char) : List Char → Bool
  | [] => sub.isEmpty
  | c :: t => sub.isPrefixOf (c :: t) || goContainsL sub t

/-- Embeds `strings.Contains s sub`. -/
def goContains (s sub : String) : Bool :=
  goContainsL sub.data s.data

/-- Embeds `strings.Replace(s, old, new, 1)` on character lists: the
first (leftmost) occurrence of `old` is replaced by `new`; when `old`
does not occur the list is unchanged. -/
def replaceFirstList (old new : List Char) : List Char → List Char
  | [] => if old.isEmpty then new else []
  | c :: t =>
    if old.isPrefixOf (c :: t) then new ++ (c :: t).drop old.length
    else c :: replaceFirstList old new t

/-- Embeds `strings.Replace(s, old, new, 1)`. -/
def replaceFirst (s old new : String) : String :=
  String.mk (replaceFirstList old.data new.data s.data)

/-- Embeds `getActiveQuestions` of the Go source: the sub-map of
`solutions` whose bracketed key occurs literally in the current
template string.  The Go function builds a fresh map; here the entry
order of the input list is kept, which realises every possible
iteration order of the result as the input order varies. -/
def getActiveQuestions (pd : puzzledata) (s : String) : List (String × String) :=
  pd.solutions.filter fun kv => goContains s ("[" ++ kv.1 ++ "]")

/-- Embeds the `for q, a := range getActiveQuestions(...)` loop of
`model.Update`, abstracted over the case-insensitive comparison
collaborator `ef` (Go's `strings.EqualFold`): the first entry (in
iteration order) whose answer matches the input, if any. -/
def findMatchWith (ef : String → String → Bool) (input : String) :
    List (String × String) → Option (String × String)
  | [] => none
  | (q, a) :: rest => if ef input a then some (q, a) else findMatchWith ef input rest

/-- The matching loop instantiated with the executable ASCII fragment
of the fold, for concrete runs. -/
def findMatch (input : String) : List (String × String) → Option (String × String) :=
  findMatchWith equalFold input

/-- Embeds `modelToGameState` of the Go source; `now` stands for
`time.Now()`. -/
def modelToGameState (m : model) (now : Nat) : GameState where
  puzzleDate := m.data.puzzleDate
  state := m.state
  correct := m.correct
  incorrect := m.incorrect
  chars := m.chars
  lastPlayed := now
  completed := m.done

/-- Embeds `applyGameState` of the Go source. -/
def applyGameState (m : model) (gs : GameState) : model :=
  { m with
    state := gs.state
    correct := gs.correct
    incorrect := gs.incorrect
    chars := gs.chars
    done := gs.completed }

/-- Embeds `newModel` of `model.go`.  `stored` is the result of the
`storage.GetGameState` lookup: `none` when there is no stored
snapshot (or no storage client), `some gs` when a snapshot was found
and `applyGameState` restores it.  Go zero values give the counters
`0` and `done = false`. -/
def newModel (d : puzzledata) (stored : Option GameState) : model :=
  let m : model :=
    { done := false
      correct := 0
      incorrect := 0
      chars := 0
      state := d.initialPuzzle
      data := d
      w := 0
      h := 0 }
  match stored with
  | some gs => applyGameState m gs
  | none => m

/-- Outcome tag of one `Update` step, determined by the branch the Go
code takes. -/
inductive Outcome where
  | ignored
  | correctGuess
  | incorrectGuess
  | other
deriving Repr, DecidableEq

/-- Result of one embedded `Update` step: the new model, the snapshot
written to storage (if any), whether `tea.Quit` was issued, and the
branch taken. -/
structure StepResult where
  m : model
  saved : Option GameState
  quit : Bool
  outcome : Outcome
deriving Repr, DecidableEq

/-- Embeds the `enter` branch of `model.Update` — the
guess-submission transition, with `input` the current text of the
input widget — abstracted over the case-insensitive comparison
collaborator `ef` (Go's `strings.EqualFold`). -/
def submitGuessWith (ef : String → String → Bool) (m : model) (input : String)
    (now : Nat) : StepResult :=
  if input == "" then ⟨m, none, false, .ignored⟩
  else
    match findMatchWith ef input (getActiveQuestions m.data m.state) with
    | some (q, a) =>
      let m1 := { m with
        correct := m.correct + 1
        state := replaceFirst m.state ("[" ++ q ++ "]") a }
      let gs := { modelToGameState m1 now with
        completed := decide (m1.correct = m1.data.solutions.length) }
      if m1.correct = m1.data.solutions.length then
        ⟨{ m1 with done := true }, some gs, true, .correctGuess⟩
      else
        ⟨m1, some gs, false, .correctGuess⟩
    | none =>
      let m1 := { m with incorrect := m.incorrect + 1 }
      ⟨m1, some { modelToGameState m1 now with completed := false }, false, .incorrectGuess⟩

/-- The guess transition instantiated with the executable ASCII
fragment of the fold, for concrete runs. -/
def submitGuess (m : model) (input : String) (now : Nat) : StepResult :=
  submitGuessWith equalFold m input now

/-- Embeds Go's `len(txt)`: the UTF-8 byte length of the string. -/
def goByteLen (s : String) : Nat :=
  (s.data.map Char.utf8Size).sum

/-- Embeds `unicode.IsLetter` on the code points the program can
reach: all of ASCII plus the Latin-1 letters (the guard in
`model.Update` only ever applies it to a single-byte, hence ASCII,
rune; the Latin-1 rows are carried so that non-ASCII letters such as
U+00E9 can be talked about). -/
def goUnicodeIsLetter (c : Char) : Bool :=
  c.isAlpha || c.toNat == 0xAA || c.toNat == 0xB5 || c.toNat == 0xBA ||
    (0xC0 ≤ c.toNat && c.toNat ≤ 0xFF && c.toNat != 0xD7 && c.toNat != 0xF7)

/-- Embeds the keystroke guard of `model.Update`:
`len(txt) == 1 && unicode.IsLetter(rune(txt[0]))`.  When the byte
length is `1` the string is exactly one character of UTF-8 size one,
so the byte `txt[0]` read by the Go code is that character. -/
def isLetterKeyMsg (txt : String) : Bool :=
  goByteLen txt == 1 && goUnicodeIsLetter (txt.data.headD 'A')

/-- Embeds the `default` branch of `model.Update` (every key message
other than `ctrl+c` and `enter`): letter keys bump `chars` and write
a snapshot; the widget update itself is external. -/
def observeKey (m : model) (txt : String) (now : Nat) : StepResult :=
  if isLetterKeyMsg txt then
    let m1 := { m with chars := m.chars + 1 }
    ⟨m1, some (modelToGameState m1 now), false, .other⟩
  else
    ⟨m, none, false, .other⟩

/-- Input events of `model.Update`: window resizes and key messages.
`keyEnter` carries the text the input widget holds when enter is
pressed; `keyOther` carries `msg.String()` of any other key. -/
inductive Msg where
  | windowSize (w h : Nat)
  | keyCtrlC
  | keyEnter (input : String)
  | keyOther (txt : String)
deriving Repr, DecidableEq

/-- Embeds `model.Update`, dispatching on the message as the Go
`switch` does. -/
def update (m : model) (msg : Msg) (now : Nat) : StepResult :=
  match msg with
  | .windowSize w h => ⟨{ m with w := w, h := h }, none, false, .other⟩
  | .keyCtrlC => ⟨m, none, true, .other⟩
  | .keyEnter input => submitGuess m input now
  | .keyOther txt => observeKey m txt now

/-- States reachable from a fresh session on document `d` by update
steps.  Per the specified state machine, `Done` is terminal (no
further transitions are defined once `done` holds), so steps are
taken from not-yet-done states only. -/
inductive Reachable (d : puzzledata) : model → Prop where
  | init : Reachable d (newModel d none)
  | step (m : model) (msg : Msg) (now : Nat) :
      Reachable d m → m.done = false → Reachable d (update m msg now).m

/-- Concrete document used by the spec's Paris scenario. -/
def parisDoc : puzzledata where
  completionText := ""
  puzzleDate := "2024-01-01"
  completionURL := ""
  solutions := [("capital", "Paris")]
  initialPuzzle := "The [capital] of France"
  puzzleSolution := ""

/-- Concrete document used by the spec's two-clue scenario. -/
def abDoc : puzzledata where
  completionText := ""
  puzzleDate := "2024-01-02"
  completionURL := ""
  solutions := [("a", "X"), ("b", "Y")]
  initialPuzzle := "[a] and [b]"
  puzzleSolution := ""

/-- Concrete document with no clues at all (the initial template has
no placeholders, which the data model explicitly allows). -/
def emptyDoc : puzzledata where
  completionText := ""
  puzzleDate := "2024-01-03"
  completionURL := ""
  solutions := []
  initialPuzzle := "no clues today"
  puzzleSolution := ""

/-- Concrete document whose single clue placeholder occurs twice in
the initial template. -/
def dupDoc : puzzledata where
  completionText := ""
  puzzleDate := "2024-01-04"
  completionURL := ""
  solutions := [("a", "X")]
  initialPuzzle := "[a] [a]"
  puzzleSolution := ""

/-- Concrete document whose clue id contains a regex metacharacter. -/
def regexDoc : puzzledata where
  completionText := ""
  puzzleDate := "2024-01-05"
  completionURL := ""
  solutions := [("a.c", "Z")]
  initialPuzzle := "x[a.c]y"
  puzzleSolution := ""

/-- Concrete document where one clue id is a proper substring of the
other clue id. -/
def subDoc : puzzledata where
  completionText := ""
  puzzleDate := "2024-01-06"
  completionURL := ""
  solutions := [("ab", "W"), ("a", "V")]
  initialPuzzle := "see [ab] here"
  puzzleSolution := ""

/-- Concrete document where two distinct clues share the same answer
text, so a single guess matches several active clues at once. -/
def multiDoc : puzzledata where
  completionText := ""
  puzzleDate := "2024-01-07"
  completionURL := ""
  solutions := [("a", "X"), ("b", "X")]
  initialPuzzle := "[a] and [b]"
  puzzleSolution := ""

/-- Runs a whole sequence of update steps (message plus timestamp),
threading the model through. -/
def runUpdates (m : model) : List (Msg × Nat) → model
  | [] => m
  | (msg, now) :: rest => runUpdates (update m msg now).m rest

/-- The Boolean substring test agrees with the mathematical infix
relation on character lists. -/
theorem goContainsL_iff (sub s : List Char) : goContainsL sub s = true ↔ sub <:+: s := by
  induction s with
  | nil => simp [goContainsL, List.infix_nil]
  | cons c t ih =>
    simp [goContainsL, ih, List.infix_cons_iff, List.isPrefixOf_iff_prefix]

/-- String form of `goContainsL_iff`. -/
theorem goContains_iff (s sub : String) : goContains s sub = true ↔ sub.data <:+: s.data :=
  goContainsL_iff sub.data s.data

/-- Membership in the active-clue list is exactly membership in the
solutions plus literal occurrence of the bracketed id. -/
theorem mem_getActiveQuestions (pd : puzzledata) (s : String) (qa : String × String) :
    qa ∈ getActiveQuestions pd s ↔
      qa ∈ pd.solutions ∧ goContains s ("[" ++ qa.1 ++ "]") = true := by
  simp [getActiveQuestions, List.mem_filter]

/-- The matching loop finds nothing exactly when no entry's answer
matches the input, whatever comparison predicate is plugged in. -/
theorem findMatchWith_eq_none_iff (ef : String → String → Bool) (input : String)
    (l : List (String × String)) :
    findMatchWith ef input l = none ↔ ∀ qa ∈ l, ef input qa.2 = false := by
  induction l with
  | nil => simp [findMatchWith]
  | cons hd rest ih =>
    obtain ⟨q, a⟩ := hd
    by_cases hf : ef input a = true
    · simp [findMatchWith, hf]
    · simp only [Bool.not_eq_true] at hf
      simp [findMatchWith, hf, ih]

/-- A successful match is the first matching entry in iteration
order: everything before it fails the comparison. -/
theorem findMatchWith_eq_some_split (ef : String → String → Bool) (input : String)
    (l : List (String × String))
    (q a : String) (h : findMatchWith ef input l = some (q, a)) :
    ef input a = true ∧
    ∃ l1 l2, l = l1 ++ (q, a) :: l2 ∧ ∀ qa ∈ l1, ef input qa.2 = false := by
  induction l with
  | nil => simp [findMatchWith] at h
  | cons hd rest ih =>
    obtain ⟨q', a'⟩ := hd
    by_cases hf : ef input a' = true
    · rw [findMatchWith, if_pos hf] at h
      obtain ⟨rfl, rfl⟩ : q' = q ∧ a' = a := by
        have := Option.some.inj h
        exact ⟨congrArg Prod.fst this, congrArg Prod.snd this⟩
      exact ⟨hf, [], rest, rfl, by simp⟩
    · rw [findMatchWith, if_neg hf] at h
      obtain ⟨heq, l1, l2, rfl, hall⟩ := ih h
      simp only [Bool.not_eq_true] at hf
      refine ⟨heq, (q', a') :: l1, l2, rfl, ?_⟩
      intro qa hqa
      rcases List.mem_cons.mp hqa with rfl | hqa
      · exact hf
      · exact hall qa hqa

/-- The ASCII-fold instance of `findMatchWith_eq_some_split`. -/
theorem findMatch_eq_some_split (input : String) (l : List (String × String))
    (q a : String) (h : findMatch input l = some (q, a)) :
    equalFold input a = true ∧
    ∃ l1 l2, l = l1 ++ (q, a) :: l2 ∧ ∀ qa ∈ l1, equalFold input qa.2 = false :=
  findMatchWith_eq_some_split equalFold input l q a h

/-- Replacement really rewrites the first occurrence: the result
splits the input at the occurrence whose left part is shortest. -/
theorem replaceFirstList_first (old new s : List Char) (h : old <:+: s) :
    ∃ pre post, s = pre ++ old ++ post ∧
      (∀ pre' post', s = pre' ++ old ++ post' → pre.length ≤ pre'.length) ∧
      replaceFirstList old new s = pre ++ new ++ post := by
  induction s with
  | nil =>
    rw [List.infix_nil] at h
    subst h
    exact ⟨[], [], rfl, fun pre' post' _ => Nat.zero_le _, by simp [replaceFirstList]⟩
  | cons c t ih =>
    by_cases hp : old.isPrefixOf (c :: t) = true
    · obtain ⟨post, hpost⟩ := List.isPrefixOf_iff_prefix.mp hp
      refine ⟨[], post, by simp [← hpost], fun pre' post' _ => Nat.zero_le _, ?_⟩
      rw [replaceFirstList, if_pos hp, ← hpost, List.drop_left]
      simp
    · have hinf : old <:+: t := by
        rcases List.infix_cons_iff.mp h with h1 | h2
        · exact absurd (List.isPrefixOf_iff_prefix.mpr h1) (by simpa using hp)
        · exact h2
      obtain ⟨pre, post, hs, hmin, hrepl⟩ := ih hinf
      refine ⟨c :: pre, post, by simp [hs], ?_, ?_⟩
      · intro pre' post' h'
        cases pre' with
        | nil =>
          exfalso
          apply hp
          exact List.isPrefixOf_iff_prefix.mpr ⟨post', by simpa using h'.symm⟩
        | cons c' pre'' =>
          have ht : t = pre'' ++ old ++ post' := by
            have := h'
            simp only [List.cons_append] at this
            exact (List.cons.injEq _ _ _ _).mp this |>.2
          have := hmin pre'' post' ht
          simpa using Nat.succ_le_succ this
      · rw [replaceFirstList, if_neg (by simpa using hp), hrepl]
        simp

/-- The guess transition never changes the document, whatever
comparison predicate is plugged in. -/
theorem submitGuessWith_data (ef : String → String → Bool) (m : model)
    (input : String) (now : Nat) :
    (submitGuessWith ef m input now).m.data = m.data := by
  unfold submitGuessWith
  split
  · rfl
  · split
    · dsimp only
      split <;> rfl
    · rfl

/-- The guess transition never changes the document. -/
theorem submitGuess_data (m : model) (input : String) (now : Nat) :
    (submitGuess m input now).m.data = m.data :=
  submitGuessWith_data equalFold m input now

/-- The keystroke transition changes nothing but `chars` (and the
emitted snapshot). -/
theorem observeKey_frame (m : model) (txt : String) (now : Nat) :
    (observeKey m txt now).m.correct = m.correct ∧
    (observeKey m txt now).m.incorrect = m.incorrect ∧
    (observeKey m txt now).m.state = m.state ∧
    (observeKey m txt now).m.done = m.done ∧
    (observeKey m txt now).m.data = m.data := by
  unfold observeKey
  split <;> simp

/-- No branch of `Update` changes the document. -/
theorem update_data_eq (m : model) (msg : Msg) (now : Nat) :
    (update m msg now).m.data = m.data := by
  cases msg with
  | windowSize w h => rfl
  | keyCtrlC => rfl
  | keyEnter input => exact submitGuess_data m input now
  | keyOther txt => exact (observeKey_frame m txt now).2.2.2.2

/-- Reachable states carry the document they were started from. -/
theorem reachable_data_eq (d : puzzledata) (m : model) (h : Reachable d m) :
    m.data = d := by
  induction h with
  | init => rfl
  | step m msg now _ _ ih => rw [update_data_eq]; exact ih

/-- ASCII alphabetic characters sit below code point 128. -/
theorem toNat_lt_of_isAlpha (c : Char) (h : c.isAlpha = true) : c.toNat < 128 := by
  simp [Char.isAlpha, Char.isUpper, Char.isLower] at h
  rcases h with ⟨h1, h2⟩ | ⟨h1, h2⟩ <;>
  · have h3 := UInt32.toNat_le_of_le (by decide) h2
    exact Nat.lt_of_le_of_lt h3 (by decide)

/-- Characters below code point 128 take one UTF-8 byte. -/
theorem utf8Size_eq_one_of_lt (c : Char) (h : c.toNat < 128) : c.utf8Size = 1 := by
  simp only [Char.utf8Size]
  rw [if_pos]
  rw [UInt32.le_def, BitVec.le_def]
  exact Nat.le_of_lt_succ h

/-- C7: a state machine initialized from any document `D`, with no
stored snapshot, starts in progress (`done = false`) with all three
counters zero and `state` equal to `D.initialPuzzle`. -/
theorem newModel_fresh (d : puzzledata) :
    (newModel d none).done = false ∧
    (newModel d none).correct = 0 ∧
    (newModel d none).incorrect = 0 ∧
    (newModel d none).chars = 0 ∧
    (newModel d none).state = d.initialPuzzle :=
  ⟨rfl, rfl, rfl, rfl, rfl⟩

/-- C6: capturing a snapshot from any machine `m` and restoring a
fresh machine from it reproduces `state`, `correct`, `incorrect`,
`chars` and `done` exactly. -/
theorem snapshot_roundtrip (m : model) (now : Nat) :
    (newModel m.data (some (modelToGameState m now))).state = m.state ∧
    (newModel m.data (some (modelToGameState m now))).correct = m.correct ∧
    (newModel m.data (some (modelToGameState m now))).incorrect = m.incorrect ∧
    (newModel m.data (some (modelToGameState m now))).chars = m.chars ∧
    (newModel m.data (some (modelToGameState m now))).done = m.done :=
  ⟨rfl, rfl, rfl, rfl, rfl⟩

/-- C3: the clue extractor returns exactly the solution entries whose
bracketed id is a literal substring of the template; ids with regex
metacharacters match only literally, an id that is a substring of
another id's bracket text does not falsely match, and over
`X and [b]` with clues `a ↦ X`, `b ↦ Y` only `b` is returned. -/
theorem getActiveQuestions_spec :
    (∀ pd s qa, qa ∈ getActiveQuestions pd s ↔
      qa ∈ pd.solutions ∧ ("[" ++ qa.1 ++ "]").data <:+: s.data) ∧
    getActiveQuestions regexDoc "x[a.c]y" = [("a.c", "Z")] ∧
    getActiveQuestions regexDoc "x[abc]y" = [] ∧
    getActiveQuestions subDoc "see [ab] here" = [("ab", "W")] ∧
    getActiveQuestions abDoc "X and [b]" = [("b", "Y")] := by
  refine ⟨?_, by decide, by decide, by decide, by decide⟩
  intro pd s qa
  rw [mem_getActiveQuestions, goContains_iff]

/-- C8 counterexample: a whitespace-only (non-empty, blank) guess is
not ignored by the code: on the Paris document it increments
`incorrect` and emits a snapshot. -/
theorem blank_input_not_ignored :
    (submitGuess (newModel parisDoc none) " " 0).m.incorrect = 1 ∧
    (submitGuess (newModel parisDoc none) " " 0).outcome ≠ Outcome.ignored ∧
    (submitGuess (newModel parisDoc none) " " 0).saved ≠ none := by
  decide

/-- The empty-input guard of the guess transition, as a rewriting
lemma. -/
theorem submitGuess_empty_step (m : model) (now : Nat) :
    submitGuess m "" now = ⟨m, none, false, Outcome.ignored⟩ :=
  rfl

/-- C8 amended: submitting the empty string is a no-op: the model is
returned unchanged, the outcome is `ignored`, no snapshot is emitted
and no quit is issued. -/
theorem empty_input_ignored (m : model) (now : Nat) :
    submitGuess m "" now = ⟨m, none, false, Outcome.ignored⟩ :=
  submitGuess_empty_step m now

/-- When the matching loop finds an entry, the guess transition bumps
`correct`, keeps `incorrect` and `chars`, rewrites the state through
`replaceFirst` on that entry, and reports a correct guess — whatever
comparison predicate is plugged in. -/
theorem submitGuessWith_of_findMatch_some (ef : String → String → Bool)
    (m : model) (input : String) (now : Nat)
    (q a : String) (hne : input ≠ "")
    (h : findMatchWith ef input (getActiveQuestions m.data m.state) = some (q, a)) :
    (submitGuessWith ef m input now).m.correct = m.correct + 1 ∧
    (submitGuessWith ef m input now).m.incorrect = m.incorrect ∧
    (submitGuessWith ef m input now).m.chars = m.chars ∧
    (submitGuessWith ef m input now).m.state = replaceFirst m.state ("[" ++ q ++ "]") a ∧
    (submitGuessWith ef m input now).outcome = Outcome.correctGuess := by
  unfold submitGuessWith
  rw [if_neg (by simpa using hne), h]
  dsimp only
  split <;> exact ⟨rfl, rfl, rfl, rfl, rfl⟩

/-- The ASCII-fold instance of `submitGuessWith_of_findMatch_some`. -/
theorem submitGuess_of_findMatch_some (m : model) (input : String) (now : Nat)
    (q a : String) (hne : input ≠ "")
    (h : findMatch input (getActiveQuestions m.data m.state) = some (q, a)) :
    (submitGuess m input now).m.correct = m.correct + 1 ∧
    (submitGuess m input now).m.incorrect = m.incorrect ∧
    (submitGuess m input now).m.chars = m.chars ∧
    (submitGuess m input now).m.state = replaceFirst m.state ("[" ++ q ++ "]") a ∧
    (submitGuess m input now).outcome = Outcome.correctGuess :=
  submitGuessWith_of_findMatch_some equalFold m input now q a hne h

/-- The guess transition never changes `chars`, whatever comparison
predicate is plugged in. -/
theorem submitGuessWith_chars (ef : String → String → Bool) (m : model)
    (input : String) (now : Nat) :
    (submitGuessWith ef m input now).m.chars = m.chars := by
  unfold submitGuessWith
  split
  · rfl
  · split
    · dsimp only
      split <;> rfl
    · rfl

/-- The guess transition never changes `chars`. -/
theorem submitGuess_chars (m : model) (input : String) (now : Nat) :
    (submitGuess m input now).m.chars = m.chars :=
  submitGuessWith_chars equalFold m input now

/-- The guess transition never resets `done`, whatever comparison
predicate is plugged in. -/
theorem submitGuessWith_done_mono (ef : String → String → Bool) (m : model)
    (input : String) (now : Nat)
    (h : m.done = true) : (submitGuessWith ef m input now).m.done = true := by
  unfold submitGuessWith
  split
  · exact h
  · split
    · dsimp only
      split
      · rfl
      · exact h
    · exact h

/-- The guess transition never resets `done`. -/
theorem submitGuess_done_mono (m : model) (input : String) (now : Nat)
    (h : m.done = true) : (submitGuess m input now).m.done = true :=
  submitGuessWith_done_mono equalFold m input now h

/-- No branch of `Update` resets `done`. -/
theorem update_done_mono (m : model) (msg : Msg) (now : Nat)
    (h : m.done = true) : (update m msg now).m.done = true := by
  cases msg with
  | windowSize w h' => exact h
  | keyCtrlC => exact h
  | keyEnter input => exact submitGuess_done_mono m input now h
  | keyOther txt =>
    show (observeKey m txt now).m.done = true
    rw [(observeKey_frame m txt now).2.2.2.1]
    exact h

/-- C1: for every comparison predicate `ef` — in particular for the
program's `strings.EqualFold` — if the non-empty input matches the
answer of some clue whose placeholder occurs literally in the current
state, the guess transition adds exactly `1` to `correct`, keeps
`incorrect` and `chars`, and rewrites the first (leftmost) textual
occurrence of the matched clue's bracketed id into that clue's
canonical answer string from the solutions. -/
theorem submitGuess_correct_guess (ef : String → String → Bool)
    (m : model) (input : String) (now : Nat)
    (hne : input ≠ "")
    (hmatch : ∃ qa : String × String, qa ∈ m.data.solutions ∧
      goContains m.state ("[" ++ qa.1 ++ "]") = true ∧ ef input qa.2 = true) :
    (submitGuessWith ef m input now).m.correct = m.correct + 1 ∧
    (submitGuessWith ef m input now).m.incorrect = m.incorrect ∧
    (submitGuessWith ef m input now).m.chars = m.chars ∧
    ∃ q a : String, (q, a) ∈ m.data.solutions ∧
      goContains m.state ("[" ++ q ++ "]") = true ∧
      ef input a = true ∧
      ∃ pre post : List Char,
        m.state.data = pre ++ ("[" ++ q ++ "]").data ++ post ∧
        (∀ pre' post', m.state.data = pre' ++ ("[" ++ q ++ "]").data ++ post' →
          pre.length ≤ pre'.length) ∧
        (submitGuessWith ef m input now).m.state.data = pre ++ a.data ++ post := by
  have hsome : ∃ qa, findMatchWith ef input (getActiveQuestions m.data m.state) = some qa := by
    cases hfm : findMatchWith ef input (getActiveQuestions m.data m.state) with
    | some qa => exact ⟨qa, rfl⟩
    | none =>
      exfalso
      obtain ⟨qa, hmem, hcont, hfold⟩ := hmatch
      have hfalse := (findMatchWith_eq_none_iff ef input _).mp hfm qa
        ((mem_getActiveQuestions _ _ _).mpr ⟨hmem, hcont⟩)
      rw [hfold] at hfalse
      exact Bool.noConfusion hfalse
  obtain ⟨⟨q, a⟩, hfm⟩ := hsome
  obtain ⟨hc, hi, hch, hst, _⟩ := submitGuessWith_of_findMatch_some ef m input now q a hne hfm
  obtain ⟨hfold, l1, l2, hsplit, _⟩ := findMatchWith_eq_some_split ef input _ q a hfm
  have hmemA : (q, a) ∈ getActiveQuestions m.data m.state := by rw [hsplit]; simp
  obtain ⟨hmemS, hcont⟩ := (mem_getActiveQuestions _ _ _).mp hmemA
  have hinf : ("[" ++ q ++ "]").data <:+: m.state.data := (goContains_iff _ _).mp hcont
  obtain ⟨pre, post, hdecomp, hmin, hrepl⟩ :=
    replaceFirstList_first ("[" ++ q ++ "]").data a.data m.state.data hinf
  refine ⟨hc, hi, hch, q, a, hmemS, hcont, hfold, pre, post, hdecomp, hmin, ?_⟩
  rw [hst]
  exact hrepl

/-- C2: for every comparison predicate `ef` — in particular for the
program's `strings.EqualFold` — a non-empty input matching no active
clue's answer adds exactly `1` to `incorrect` and leaves `state`,
`correct`, `chars` and `done` unchanged. -/
theorem submitGuess_incorrect_guess (ef : String → String → Bool)
    (m : model) (input : String) (now : Nat)
    (hne : input ≠ "")
    (hnomatch : ∀ qa : String × String, qa ∈ m.data.solutions →
      goContains m.state ("[" ++ qa.1 ++ "]") = true → ef input qa.2 = false) :
    (submitGuessWith ef m input now).m.incorrect = m.incorrect + 1 ∧
    (submitGuessWith ef m input now).m.state = m.state ∧
    (submitGuessWith ef m input now).m.correct = m.correct ∧
    (submitGuessWith ef m input now).m.chars = m.chars ∧
    (submitGuessWith ef m input now).m.done = m.done := by
  have hfm : findMatchWith ef input (getActiveQuestions m.data m.state) = none := by
    rw [findMatchWith_eq_none_iff]
    intro qa hqa
    obtain ⟨hmem, hcont⟩ := (mem_getActiveQuestions _ _ _).mp hqa
    exact hnomatch qa hmem hcont
  unfold submitGuessWith
  rw [if_neg (by simpa using hne), hfm]
  exact ⟨rfl, rfl, rfl, rfl, rfl⟩

/-- C10: one guess performs at most one replacement and adds at most
`1` to `correct`, even when the input folds to several active
answers: the loop stops at the first matching entry of the iteration
order, and everything before that entry failed the fold test. -/
theorem submitGuess_at_most_one (m : model) (input : String) (now : Nat)
    (hne : input ≠ "") :
    (submitGuess m input now).m.correct ≤ m.correct + 1 ∧
    ((submitGuess m input now).m.correct = m.correct →
      (submitGuess m input now).m.state = m.state) ∧
    (∀ q a : String,
      findMatch input (getActiveQuestions m.data m.state) = some (q, a) →
      (submitGuess m input now).m.correct = m.correct + 1 ∧
      (submitGuess m input now).m.state = replaceFirst m.state ("[" ++ q ++ "]") a ∧
      ∃ l1 l2, getActiveQuestions m.data m.state = l1 ++ (q, a) :: l2 ∧
        ∀ qa ∈ l1, equalFold input qa.2 = false) := by
  refine ⟨?_, ?_, ?_⟩
  · cases hfm : findMatchWith equalFold input (getActiveQuestions m.data m.state) with
    | none =>
      unfold submitGuess submitGuessWith
      rw [if_neg (by simpa using hne), hfm]
      exact Nat.le_succ _
    | some qa =>
      obtain ⟨q, a⟩ := qa
      rw [(submitGuess_of_findMatch_some m input now q a hne hfm).1]
  · intro hcc
    cases hfm : findMatchWith equalFold input (getActiveQuestions m.data m.state) with
    | none =>
      unfold submitGuess submitGuessWith
      rw [if_neg (by simpa using hne), hfm]
    | some qa =>
      obtain ⟨q, a⟩ := qa
      rw [(submitGuess_of_findMatch_some m input now q a hne hfm).1] at hcc
      exact absurd hcc (by omega)
  · intro q a hfm
    obtain ⟨hc, _, _, hst, _⟩ := submitGuess_of_findMatch_some m input now q a hne hfm
    obtain ⟨_, l1, l2, hsplit, hall⟩ := findMatch_eq_some_split input _ q a hfm
    exact ⟨hc, hst, l1, l2, hsplit, hall⟩

/-- Witness for C1: the Paris scenario, evaluated concretely at the
ASCII fold (on which `equalFold` is exactly Go's `EqualFold`). -/
theorem submitGuess_correct_guess_witness :
    (submitGuess (newModel parisDoc none) "paris" 0).m.correct = 1 :=
  (submitGuess_correct_guess equalFold (newModel parisDoc none) "paris" 0 (by decide)
    ⟨("capital", "Paris"), by decide, by decide, by decide⟩).1

/-- Witness for C2: the London scenario, evaluated concretely at the
ASCII fold (on which `equalFold` is exactly Go's `EqualFold`). -/
theorem submitGuess_incorrect_guess_witness :
    (submitGuess (newModel parisDoc none) "london" 0).m.incorrect = 1 :=
  (submitGuess_incorrect_guess equalFold (newModel parisDoc none) "london" 0 (by decide)
    (by decide)).1

/-- Witness for C10: with two active clues sharing answer `X`, a
single guess of `x` applies exactly one replacement. -/
theorem submitGuess_at_most_one_witness :
    (submitGuess (newModel multiDoc none) "x" 0).m.correct = 1 :=
  ((submitGuess_at_most_one (newModel multiDoc none) "x" 0 (by decide)).2.2
    "a" "X" (by decide)).1

/-- C4 counterexample: on a document with an empty solutions mapping
the initial state itself has `correct = len(solutions) = 0` while
`done` is still `false`, so the claimed equivalence fails on a
reachable state. -/
theorem done_iff_fails_on_empty_solutions :
    Reachable emptyDoc (newModel emptyDoc none) ∧
    (newModel emptyDoc none).done = false ∧
    (newModel emptyDoc none).correct = emptyDoc.solutions.length :=
  ⟨Reachable.init, rfl, rfl⟩

/-- C4 amended: for documents whose solutions mapping is non-empty,
every state reachable from a fresh session by guess and keystroke
steps (none taken once done, the terminal state) has `done` true
exactly when `correct` equals the number of solution entries. -/
theorem done_iff_correct_eq_length (d : puzzledata) (hd : d.solutions ≠ [])
    (m : model) (hr : Reachable d m) :
    m.done = true ↔ m.correct = d.solutions.length := by
  induction hr with
  | init =>
    refine iff_of_false (by simp [newModel]) ?_
    show ¬(0 = d.solutions.length)
    intro h
    exact hd (List.length_eq_zero.mp h.symm)
  | step m msg now hr hdone ih =>
    have hdata := reachable_data_eq d m hr
    cases msg with
    | windowSize w h' => exact ih
    | keyCtrlC => exact ih
    | keyOther txt =>
      show (observeKey m txt now).m.done = true ↔
        (observeKey m txt now).m.correct = d.solutions.length
      rw [(observeKey_frame m txt now).2.2.2.1, (observeKey_frame m txt now).1]
      exact ih
    | keyEnter input =>
      show (submitGuess m input now).m.done = true ↔
        (submitGuess m input now).m.correct = d.solutions.length
      by_cases hin : input = ""
      · subst hin
        rw [submitGuess_empty_step]
        exact ih
      cases hfm : findMatchWith equalFold input (getActiveQuestions m.data m.state) with
      | none =>
        unfold submitGuess submitGuessWith
        rw [if_neg (by simpa using hin), hfm]
        exact ih
      | some qa =>
        obtain ⟨q, a⟩ := qa
        unfold submitGuess submitGuessWith
        rw [if_neg (by simpa using hin), hfm]
        dsimp only
        by_cases hlen : m.correct + 1 = m.data.solutions.length
        · rw [if_pos hlen]
          rw [hdata] at hlen
          exact iff_of_true rfl hlen
        · rw [if_neg hlen]
          rw [hdata] at hlen
          exact iff_of_false (by simpa using hdone) hlen

/-- Witness for C4: the equivalence instantiated at the fresh Paris
session. -/
theorem done_iff_correct_eq_length_witness :
    ((newModel parisDoc none).done = true ↔
      (newModel parisDoc none).correct = parisDoc.solutions.length) :=
  done_iff_correct_eq_length parisDoc (by decide) _ Reachable.init

/-- C5 counterexample: on the document whose clue `a` occurs twice in
the template, the guess that completes the puzzle (`correct` reaches
`len(solutions)`, `done` becomes true) still leaves the placeholder
`[a]` in `state`. -/
theorem placeholder_remains_at_done :
    ("a", "X") ∈ dupDoc.solutions ∧
    (submitGuess (newModel dupDoc none) "X" 0).m.done = true ∧
    (submitGuess (newModel dupDoc none) "X" 0).m.correct = dupDoc.solutions.length ∧
    goContains (submitGuess (newModel dupDoc none) "X" 0).m.state "[a]" = true := by
  decide

/-- C5 amended: the instant a correct guess brings `correct` to the
number of solution entries, `done` is set, and a true `done` survives
every further sequence of update steps; placeholders, however, can
remain in `state` at that moment (see the counterexample). -/
theorem done_reached_and_terminal :
    (∀ (m : model) (input : String) (now : Nat),
      (submitGuess m input now).outcome = Outcome.correctGuess →
      (submitGuess m input now).m.correct = m.data.solutions.length →
      (submitGuess m input now).m.done = true) ∧
    (∀ (m : model) (evs : List (Msg × Nat)),
      m.done = true → (runUpdates m evs).done = true) := by
  constructor
  · intro m input now hout hlen
    by_cases hin : input = ""
    · subst hin
      rw [submitGuess_empty_step] at hout
      exact absurd hout (by simp)
    cases hfm : findMatchWith equalFold input (getActiveQuestions m.data m.state) with
    | none =>
      unfold submitGuess submitGuessWith at hout
      rw [if_neg (by simpa using hin), hfm] at hout
      exact absurd hout (by simp)
    | some qa =>
      obtain ⟨q, a⟩ := qa
      unfold submitGuess submitGuessWith at hlen ⊢
      rw [if_neg (by simpa using hin), hfm] at hlen ⊢
      dsimp only at hlen ⊢
      by_cases hc : m.correct + 1 = m.data.solutions.length
      · rw [if_pos hc]
      · rw [if_neg hc] at hlen
        exact absurd hlen hc
  · intro m evs
    induction evs generalizing m with
    | nil => exact id
    | cons ev rest ih =>
      obtain ⟨msg, now⟩ := ev
      intro hdone
      exact ih _ (update_done_mono m msg now hdone)

/-- Witness for C5: the winning Paris guess sets `done`, and `done`
survives a further keystroke step. -/
theorem done_reached_and_terminal_witness :
    (submitGuess (newModel parisDoc none) "paris" 0).m.done = true ∧
    (runUpdates (submitGuess (newModel parisDoc none) "paris" 0).m
      [(Msg.keyOther "x", 3)]).done = true :=
  ⟨done_reached_and_terminal.1 (newModel parisDoc none) "paris" 0 (by decide) (by decide),
   done_reached_and_terminal.2 _ [(Msg.keyOther "x", 3)] (by decide)⟩

/-- C9 counterexample: the input event `é` is a single alphabetic
character (one character, a Latin-1 letter), yet the keystroke branch
leaves `chars` at `0` and writes no snapshot, because the code tests
the UTF-8 byte length, which is `2`. -/
theorem non_ascii_letter_not_counted :
    ("é" : String).data.length = 1 ∧
    goUnicodeIsLetter (("é" : String).data.headD 'A') = true ∧
    goByteLen "é" = 2 ∧
    (observeKey (newModel parisDoc none) "é" 0).m.chars = 0 ∧
    (observeKey (newModel parisDoc none) "é" 0).saved = none := by
  decide

/-- C9 amended: a key event that is a single ASCII alphabetic
character adds exactly `1` to `chars`, leaves `correct`, `incorrect`,
`state` and `done` unchanged, and still writes a snapshot; every
other input event (non-letter keys, multi-byte characters, enter,
ctrl+c, resizes) leaves `chars` unchanged. -/
theorem observeLetter_behavior :
    (∀ (m : model) (c : Char) (now : Nat), c.isAlpha = true →
      (observeKey m (String.mk [c]) now).m.chars = m.chars + 1 ∧
      (observeKey m (String.mk [c]) now).m.correct = m.correct ∧
      (observeKey m (String.mk [c]) now).m.incorrect = m.incorrect ∧
      (observeKey m (String.mk [c]) now).m.state = m.state ∧
      (observeKey m (String.mk [c]) now).m.done = m.done ∧
      (observeKey m (String.mk [c]) now).saved =
        some (modelToGameState (observeKey m (String.mk [c]) now).m now)) ∧
    (∀ (m : model) (msg : Msg) (now : Nat),
      (∀ txt, msg = Msg.keyOther txt → isLetterKeyMsg txt = false) →
      (update m msg now).m.chars = m.chars) := by
  constructor
  · intro m c now h
    have hkey : isLetterKeyMsg (String.mk [c]) = true := by
      simp [isLetterKeyMsg, goByteLen, goUnicodeIsLetter, h,
        utf8Size_eq_one_of_lt c (toNat_lt_of_isAlpha c h)]
    unfold observeKey
    rw [if_pos hkey]
    exact ⟨rfl, rfl, rfl, rfl, rfl, rfl⟩
  · intro m msg now h
    cases msg with
    | windowSize w h' => rfl
    | keyCtrlC => rfl
    | keyEnter input => exact submitGuess_chars m input now
    | keyOther txt =>
      show (observeKey m txt now).m.chars = m.chars
      unfold observeKey
      rw [if_neg (by simp [h txt rfl])]

/-- Witness for C9: the letter `p` bumps `chars`; the digit key `1`
does not. -/
theorem observeLetter_behavior_witness :
    (observeKey (newModel parisDoc none) (String.mk ['p']) 0).m.chars = 1 ∧
    (update (newModel parisDoc none) (Msg.keyOther "1") 0).m.chars = 0 :=
  ⟨(observeLetter_behavior.1 (newModel parisDoc none) 'p' 0 (by decide)).1,
   observeLetter_behavior.2 (newModel parisDoc none) (Msg.keyOther "1") 0
     (fun txt h => by cases h; decide)⟩

end Brack
